import Mathlib

/-!
Verification of the tic-tac-toe game core.

The game core lives in two source variants of `App.js`:
* `src/tic_tac_toe_frontend/src/App.js` — the simple variant (stored `xIsNext`
  flag, no redo/jump controls);
* `src/unnamed/part_000` — the full history-store variant (player derived from
  step parity, `handleUndo`/`handleRedo`/`jumpTo`/`handleReset`), which is the
  variant the repository test suite (`App.test.js`, exercising Redo and
  "Go to start") runs against, and which implements the spec's HistoryStore.

`calculateWinner`, the status derivation (`movesPlayed`/`isDraw`), and the
body of `handlePlay` are textually identical in both variants.  The state
model below embeds the full history-store variant (`part_000`).
-/

namespace TicTacToe

/-- A mark on the board: the JS strings `'X'` and `'O'`. -/
inductive Mark where
  | X : Mark
  | O : Mark
deriving DecidableEq, Repr

/-- A board cell: `none` models the JS `null` (and array holes / `undefined`),
both of which are falsy and compare unequal to `'X'`/`'O'` under `===`. -/
abbrev Cell := Option Mark

/-- A board snapshot: the JS array `squares`.  The initial board is
`Array(9).fill(null)`; out-of-range writes can grow it (JS array semantics). -/
abbrev Board := List Cell

/-- Read `squares[i]`: in JS an out-of-range read yields `undefined`,
modelled by the default `none`. -/
def cellAt (squares : Board) (i : Nat) : Cell :=
  squares.getD i none

/-- The 8 winning lines, in the exact order of the `lines` array in
`calculateWinner`: rows top-to-bottom, columns left-to-right, then the two
diagonals. -/
def linesList : List (Nat × Nat × Nat) :=
  [(0, 1, 2), (3, 4, 5), (6, 7, 8),
   (0, 3, 6), (1, 4, 7), (2, 5, 8),
   (0, 4, 8), (2, 4, 6)]

/-- The loop-body test of `calculateWinner` for one line `[a, b, c]`:
`squares[a] && squares[a] === squares[b] && squares[a] === squares[c]`
returns the winning mark `squares[a]` when the test passes. -/
def lineFilled (squares : Board) (l : Nat × Nat × Nat) : Option Mark :=
  match cellAt squares l.1 with
  | none => none
  | some m =>
      if cellAt squares l.2.1 = some m ∧ cellAt squares l.2.2 = some m then
        some m
      else
        none

/-- The `for` loop of `calculateWinner`: scan the given lines in order and
return the first winner together with its line. -/
def scanLines (squares : Board) : List (Nat × Nat × Nat) → Option (Mark × (Nat × Nat × Nat))
  | [] => none
  | l :: rest =>
      match lineFilled squares l with
      | some m => some (m, l)
      | none => scanLines squares rest

/-- Function `calculateWinner(squares)` from `App.js`: `some (winner, line)` models the
JS `{ winner, line: [a, b, c] }`, and `none` models `{ winner: null, line: [] }`. -/
def calculateWinner (squares : Board) : Option (Mark × (Nat × Nat × Nat)) :=
  scanLines squares linesList

/-- Count `movesPlayed = currentSquares.filter(Boolean).length`. -/
def movesPlayed (squares : Board) : Nat :=
  (squares.filter (fun c => c.isSome)).length

/-- Flag `isDraw = !winner && movesPlayed === 9`. -/
def isDraw (squares : Board) : Bool :=
  !(calculateWinner squares).isSome && movesPlayed squares == 9

/-- The spec's Status value, derived in the source by
`winner ? Winner : isDraw ? Draw : Turn xIsNext`. -/
inductive Status where
  | InProgress : Mark → Status
  | Won : Mark → Nat × Nat × Nat → Status
  | Draw : Status
deriving DecidableEq, Repr

/-- The status derivation of the source, as a function of the current board
and the `xIsNext` flag: winner first, then the draw test, else in-progress. -/
def statusOf (squares : Board) (xNext : Bool) : Status :=
  match calculateWinner squares with
  | some (m, l) => Status.Won m l
  | none =>
      if movesPlayed squares = 9 then Status.Draw
      else Status.InProgress (if xNext then Mark.X else Mark.O)

/-- The spec's move-error taxonomy (the source rejects silently; the error
names label which disjunct of the source's guard fired, in the source's
left-to-right short-circuit order). -/
inductive MoveError where
  | CellOccupied : MoveError
  | GameOver : MoveError
  | AtStart : MoveError
  | AtEnd : MoveError
  | OutOfRange : MoveError
deriving DecidableEq, Repr

/-- The React state of the history-store variant:
`history` (array of board snapshots) and `step` (current index). -/
structure GState where
  history : List Board
  step : Nat
deriving DecidableEq, Repr

/-- Initial state: `useState([Array(9).fill(null)])`, `useState(0)`. -/
def initState : GState :=
  { history := [List.replicate 9 none], step := 0 }

/-- Read `currentSquares = history[step]`. -/
def currentBoard (s : GState) : Board :=
  s.history.getD s.step []

/-- Derived flag `xIsNext = step % 2 === 0` (computed from the step, not stored). -/
def xIsNext (s : GState) : Bool :=
  s.step % 2 == 0

/-- The JS assignment `next[i] = v` on an array `next`: in-range indices
overwrite, index `length` appends, larger indices pad with holes
(read back as `undefined`, i.e. `none`) up to `i` and then set it. -/
def jsSet (squares : Board) (i : Nat) (v : Cell) : Board :=
  if i < squares.length then
    squares.set i v
  else
    squares ++ List.replicate (i - squares.length) none ++ [v]

/-- Handler `handlePlay(i)`: rejects when `currentSquares[i] || winner` is truthy;
otherwise writes the next mark at `i`, truncates the history to
`[0..step+1)`, appends the new snapshot, and advances `step`. -/
def handlePlay (s : GState) (i : Nat) : GState :=
  if (cellAt (currentBoard s) i).isSome || (calculateWinner (currentBoard s)).isSome then
    s
  else
    { history :=
        s.history.take (s.step + 1) ++
          [jsSet (currentBoard s) i (some (if xIsNext s then Mark.X else Mark.O))],
      step := s.step + 1 }

/-- Handler `handleReset()`: back to the initial state. -/
def handleReset (_ : GState) : GState :=
  initState

/-- Handler `handleUndo()`: `if (step > 0) setStep(step - 1)`. -/
def handleUndo (s : GState) : GState :=
  if 0 < s.step then { s with step := s.step - 1 } else s

/-- Handler `handleRedo()`: `if (step < history.length - 1) setStep(step + 1)`. -/
def handleRedo (s : GState) : GState :=
  if s.step < s.history.length - 1 then { s with step := s.step + 1 } else s

/-- Handler `jumpTo(moveIndex)`: `if (moveIndex >= 0 && moveIndex < history.length)
setStep(moveIndex)`; the index is a position in the rendered move list, so it
is a natural number and the `>= 0` test is automatic. -/
def jumpTo (s : GState) (moveIndex : Nat) : GState :=
  if moveIndex < s.history.length then { s with step := moveIndex } else s

/-- Operation `currentStatus()` of the spec: the source's derivation applied to the
current snapshot and the derived `xIsNext`. -/
def currentStatus (s : GState) : Status :=
  statusOf (currentBoard s) (xIsNext s)

/-- The reason `handlePlay` rejects, following the source guard
`currentSquares[i] || winner` in its left-to-right short-circuit order and
labelled with the spec's error names; `none` when the play is accepted. -/
def playError (s : GState) (i : Nat) : Option MoveError :=
  if (cellAt (currentBoard s) i).isSome then some MoveError.CellOccupied
  else if (calculateWinner (currentBoard s)).isSome then some MoveError.GameOver
  else none

/-- The reason `handleUndo` rejects (`step > 0` is the source guard; the
spec names the rejected case AtStart). -/
def undoError (s : GState) : Option MoveError :=
  if 0 < s.step then none else some MoveError.AtStart

/-- The mark placed by the move leading from snapshot `i` to snapshot `i+1`:
even `i` places X (the derived `xIsNext` at step `i`). -/
def markOf (i : Nat) : Mark :=
  if i % 2 = 0 then Mark.X else Mark.O

/-- States reachable from the initial state by the spec's operations
(`play` with a cell index in 0..8, `undo`, `redo`, `jumpTo`, `reset`). -/
inductive Reach : GState → Prop where
  | init : Reach initState
  | play {s : GState} (i : Fin 9) : Reach s → Reach (handlePlay s i.val)
  | undo {s : GState} : Reach s → Reach (handleUndo s)
  | redo {s : GState} : Reach s → Reach (handleRedo s)
  | jump {s : GState} (k : Nat) : Reach s → Reach (jumpTo s k)
  | reset {s : GState} : Reach s → Reach (handleReset s)

/-! ### Basic lemmas about the board functions -/

theorem cellAt_eq_getElem (b : Board) (k : Nat) (hk : k < b.length) :
    cellAt b k = b[k] := by
  simp [cellAt, List.getD_eq_getElem?_getD, List.getElem?_eq_getElem hk]

theorem scanLines_first (squares : Board) (ls : List (Nat × Nat × Nat)) :
    ∀ (k : Nat) (hk : k < ls.length) (m : Mark),
      lineFilled squares ls[k] = some m →
      (∀ j (hj : j < k), lineFilled squares (ls.get ⟨j, Nat.lt_trans hj hk⟩) = none) →
      scanLines squares ls = some (m, ls[k]) := by
  induction ls with
  | nil => intro k hk; simp at hk
  | cons l rest ih =>
    intro k hk m hm hfirst
    cases k with
    | zero =>
      simp only [List.getElem_cons_zero] at hm ⊢
      simp [scanLines, hm]
    | succ k =>
      have h0 : lineFilled squares l = none := by
        simpa using hfirst 0 (Nat.succ_pos k)
      have hk' : k < rest.length := by simpa using hk
      have hrest : scanLines squares rest = some (m, rest[k]) := by
        refine ih k hk' m (by simpa using hm) ?_
        intro j hj
        simpa using hfirst (j + 1) (by omega)
      simp [scanLines, h0, hrest]

theorem scanLines_eq_none (squares : Board) (ls : List (Nat × Nat × Nat))
    (h : ∀ l ∈ ls, lineFilled squares l = none) : scanLines squares ls = none := by
  induction ls with
  | nil => rfl
  | cons l rest ih =>
    have h0 : lineFilled squares l = none := h l (by simp)
    have hrest : scanLines squares rest = none := ih (fun x hx => h x (by simp [hx]))
    simp [scanLines, h0, hrest]

theorem movesPlayed_none_cons (t : Board) : movesPlayed (none :: t) = movesPlayed t := by
  simp [movesPlayed, List.filter_cons]

theorem movesPlayed_some_cons (m : Mark) (t : Board) :
    movesPlayed (some m :: t) = movesPlayed t + 1 := by
  simp [movesPlayed, List.filter_cons]

theorem movesPlayed_set (m : Mark) :
    ∀ (b : Board) (k : Nat) (hk : k < b.length), b[k] = none →
      movesPlayed (b.set k (some m)) = movesPlayed b + 1 := by
  intro b
  induction b with
  | nil => intro k hk _; simp at hk
  | cons c t ih =>
    intro k hk hnone
    cases k with
    | zero =>
      simp only [List.getElem_cons_zero] at hnone
      subst hnone
      simp [List.set, movesPlayed_none_cons, movesPlayed_some_cons]
    | succ k =>
      have hk' : k < t.length := by simpa using hk
      have hnone' : t[k] = none := by simpa using hnone
      cases c with
      | none => simp [List.set, movesPlayed_none_cons, ih k hk' hnone']
      | some c => simp [List.set, movesPlayed_some_cons, ih k hk' hnone']

theorem movesPlayed_eq_countP (b : Board) :
    movesPlayed b = b.countP (fun c => c.isSome) :=
  (List.countP_eq_length_filter _ _).symm

theorem cellAt_isSome_of_movesPlayed_eq_length (b : Board)
    (hm : movesPlayed b = b.length) (i : Nat) (hi : i < b.length) :
    (cellAt b i).isSome := by
  rw [movesPlayed_eq_countP] at hm
  have hall := List.countP_eq_length.mp hm
  rw [cellAt_eq_getElem b i hi]
  exact hall _ (List.getElem_mem hi)

theorem movesPlayed_ne_length_of_none (b : Board) (k : Nat)
    (hk : k < b.length) (hnone : cellAt b k = none) :
    movesPlayed b ≠ b.length := by
  intro hm
  have := cellAt_isSome_of_movesPlayed_eq_length b hm k hk
  rw [hnone] at this
  simp at this

/-! ### Characterising `handlePlay` -/

theorem handlePlay_accept (s : GState) (i : Nat)
    (hc : cellAt (currentBoard s) i = none)
    (hw : calculateWinner (currentBoard s) = none) :
    handlePlay s i =
      { history := s.history.take (s.step + 1) ++
          [jsSet (currentBoard s) i (some (if xIsNext s then Mark.X else Mark.O))],
        step := s.step + 1 } := by
  simp [handlePlay, hc, hw]

theorem handlePlay_reject (s : GState) (i : Nat)
    (h : (cellAt (currentBoard s) i).isSome ∨ (calculateWinner (currentBoard s)).isSome) :
    handlePlay s i = s := by
  rcases h with h | h <;> simp [handlePlay, h]

theorem handlePlay_eq_self_iff (s : GState) (i : Nat) :
    handlePlay s i = s ↔
      ((cellAt (currentBoard s) i).isSome ∨ (calculateWinner (currentBoard s)).isSome) := by
  constructor
  · intro he
    by_contra hor
    push_neg at hor
    have hc : cellAt (currentBoard s) i = none := by
      simpa [Option.isSome_iff_ne_none] using hor.1
    have hw : calculateWinner (currentBoard s) = none := by
      simpa [Option.isSome_iff_ne_none] using hor.2
    have hstep : (handlePlay s i).step = s.step := by rw [he]
    rw [handlePlay_accept s i hc hw] at hstep
    simp at hstep
  · exact handlePlay_reject s i

theorem xIsNext_mark (s : GState) :
    (if xIsNext s then Mark.X else Mark.O) = markOf s.step := by
  by_cases hp : s.step % 2 = 0 <;> simp [xIsNext, markOf, hp]

/-! ### The history invariant -/

/-- Well-formedness of a history-store state: the first snapshot is the empty
board, the cursor is in range, every snapshot has 9 cells, snapshot `i`
carries exactly `i` marks, and consecutive snapshots differ by one
`Empty → Mark` write whose mark alternates by the parity of `i`. -/
structure Wf (s : GState) : Prop where
  head_init : s.history[0]? = some (List.replicate 9 none)
  step_lt : s.step < s.history.length
  len9 : ∀ b ∈ s.history, b.length = 9
  counts : ∀ (i : Nat) (b : Board), s.history[i]? = some b → movesPlayed b = i
  chain : ∀ (i : Nat) (b b' : Board), s.history[i]? = some b →
    s.history[i + 1]? = some b' →
    ∃ k, k < 9 ∧ cellAt b k = none ∧ b' = b.set k (some (markOf i))

theorem wf_initState : Wf initState := by
  constructor
  · rfl
  · decide
  · intro b hb
    simp only [initState, List.mem_singleton] at hb
    simp [hb]
  · intro i b hb
    match i with
    | 0 => simp only [initState] at hb; simp at hb; subst hb; decide
    | i + 1 => simp [initState] at hb
  · intro i b b' _ hb'
    simp [initState] at hb'

theorem history_ne_nil_of_wf {s : GState} (h : Wf s) : 0 < s.history.length := by
  by_contra hlen
  push_neg at hlen
  have := h.head_init
  rw [List.getElem?_eq_none (by omega)] at this
  simp at this

theorem currentBoard_getElem? {s : GState} (h : s.step < s.history.length) :
    s.history[s.step]? = some (currentBoard s) := by
  simp [currentBoard, List.getD_eq_getElem?_getD, List.getElem?_eq_getElem h]

theorem currentBoard_len9 {s : GState} (h : Wf s) : (currentBoard s).length = 9 := by
  have hmem : currentBoard s ∈ s.history := by
    have := currentBoard_getElem? h.step_lt
    rw [List.getElem?_eq_some] at this
    rcases this with ⟨hlt, heq⟩
    rw [← heq]
    exact List.getElem_mem hlt
  exact h.len9 _ hmem

theorem currentBoard_count {s : GState} (h : Wf s) :
    movesPlayed (currentBoard s) = s.step :=
  h.counts s.step (currentBoard s) (currentBoard_getElem? h.step_lt)

theorem wf_handlePlay {s : GState} (h : Wf s) (i : Fin 9) : Wf (handlePlay s i.val) := by
  by_cases hg : ((cellAt (currentBoard s) i.val).isSome ||
      (calculateWinner (currentBoard s)).isSome) = true
  · rw [handlePlay_reject s i.val (by simpa using hg)]
    exact h
  · have hc : cellAt (currentBoard s) i.val = none := by
      simp only [Bool.or_eq_true, not_or] at hg
      simpa [Option.isSome_iff_ne_none] using hg.1
    have hw : calculateWinner (currentBoard s) = none := by
      simp only [Bool.or_eq_true, not_or] at hg
      simpa [Option.isSome_iff_ne_none] using hg.2
    rw [handlePlay_accept s i.val hc hw]
    have hlen9 : (currentBoard s).length = 9 := currentBoard_len9 h
    have hi9 : i.val < (currentBoard s).length := by rw [hlen9]; exact i.isLt
    have hjs : jsSet (currentBoard s) i.val (some (if xIsNext s then Mark.X else Mark.O)) =
        (currentBoard s).set i.val (some (markOf s.step)) := by
      rw [xIsNext_mark]
      simp only [jsSet]
      rw [if_pos hi9]
    rw [hjs]
    generalize hB : (currentBoard s).set i.val (some (markOf s.step)) = B
    have htakelen : (s.history.take (s.step + 1)).length = s.step + 1 := by
      rw [List.length_take]
      exact min_eq_left (by have := h.step_lt; omega)
    have happlen : (s.history.take (s.step + 1) ++ [B]).length = s.step + 2 := by
      rw [List.length_append, htakelen]
      rfl
    have hgetj : ∀ j, j ≤ s.step →
        (s.history.take (s.step + 1) ++ [B])[j]? = s.history[j]? := by
      intro j hj
      rw [List.getElem?_append, if_pos (by rw [htakelen]; omega),
        List.getElem?_take, if_pos (by omega)]
    have hgettop : (s.history.take (s.step + 1) ++ [B])[s.step + 1]? = some B := by
      have := List.getElem?_concat_length (s.history.take (s.step + 1)) B
      rwa [htakelen] at this
    have hgetnone : ∀ j, s.step + 1 < j →
        (s.history.take (s.step + 1) ++ [B])[j]? = none := by
      intro j hj
      exact List.getElem?_eq_none (by rw [happlen]; omega)
    have hcellnone : (currentBoard s)[i.val] = none := by
      rw [← cellAt_eq_getElem _ _ hi9]
      exact hc
    constructor
    · show (s.history.take (s.step + 1) ++ [B])[0]? = some (List.replicate 9 none)
      rw [hgetj 0 (by omega)]
      exact h.head_init
    · show s.step + 1 < (s.history.take (s.step + 1) ++ [B]).length
      rw [happlen]
      omega
    · intro b hb
      rcases List.mem_append.mp hb with hb | hb
      · exact h.len9 b (List.Sublist.mem hb (List.take_sublist _ _))
      · rw [List.mem_singleton] at hb
        subst hb
        rw [← hB, List.length_set]
        exact hlen9
    · intro j b hb
      by_cases hj : j ≤ s.step
      · rw [hgetj j hj] at hb
        exact h.counts j b hb
      · by_cases hj2 : j = s.step + 1
        · subst hj2
          rw [hgettop] at hb
          have hbB : b = B := by
            simpa using hb.symm
          rw [hbB, ← hB,
            movesPlayed_set _ (currentBoard s) i.val hi9 hcellnone,
            currentBoard_count h]
        · rw [hgetnone j (by omega)] at hb
          simp at hb
    · intro j b b' hb hb'
      by_cases hj : j + 1 ≤ s.step
      · rw [hgetj j (by omega)] at hb
        rw [hgetj (j + 1) hj] at hb'
        exact h.chain j b b' hb hb'
      · by_cases hj2 : j = s.step
        · subst hj2
          rw [hgetj s.step (le_refl _)] at hb
          rw [currentBoard_getElem? h.step_lt] at hb
          have hbcur : b = currentBoard s := by simpa using hb.symm
          rw [hgettop] at hb'
          have hb'B : b' = B := by simpa using hb'.symm
          exact ⟨i.val, i.isLt, by rw [hbcur]; exact hc, by rw [hb'B, ← hB, hbcur]⟩
        · rw [hgetnone (j + 1) (by omega)] at hb'
          simp at hb'

theorem wf_handleUndo {s : GState} (h : Wf s) : Wf (handleUndo s) := by
  rw [handleUndo]
  by_cases hg : 0 < s.step
  · rw [if_pos hg]
    refine ⟨h.head_init, ?_, h.len9, h.counts, h.chain⟩
    show s.step - 1 < s.history.length
    have := h.step_lt
    omega
  · rw [if_neg hg]
    exact h

theorem wf_handleRedo {s : GState} (h : Wf s) : Wf (handleRedo s) := by
  rw [handleRedo]
  by_cases hg : s.step < s.history.length - 1
  · rw [if_pos hg]
    refine ⟨h.head_init, ?_, h.len9, h.counts, h.chain⟩
    show s.step + 1 < s.history.length
    have hlen := history_ne_nil_of_wf h
    omega
  · rw [if_neg hg]
    exact h

theorem wf_jumpTo {s : GState} (h : Wf s) (k : Nat) : Wf (jumpTo s k) := by
  rw [jumpTo]
  by_cases hg : k < s.history.length
  · rw [if_pos hg]
    exact ⟨h.head_init, hg, h.len9, h.counts, h.chain⟩
  · rw [if_neg hg]
    exact h

/-- Every reachable state satisfies the history invariant. -/
theorem reach_wf {s : GState} (h : Reach s) : Wf s := by
  induction h with
  | init => exact wf_initState
  | play i _ ih => exact wf_handlePlay ih i
  | undo _ ih => exact wf_handleUndo ih
  | redo _ ih => exact wf_handleRedo ih
  | jump k _ ih => exact wf_jumpTo ih k
  | reset _ _ => exact wf_initState

/-! ### Status characterisations and scenario states -/

theorem lineFilled_eq_some_iff (squares : Board) (l : Nat × Nat × Nat) (m : Mark) :
    lineFilled squares l = some m ↔
      cellAt squares l.1 = some m ∧ cellAt squares l.2.1 = some m ∧
        cellAt squares l.2.2 = some m := by
  unfold lineFilled
  rcases h1 : cellAt squares l.1 with _ | m1
  · simp [h1]
  · simp only [h1]
    by_cases hcond : cellAt squares l.2.1 = some m1 ∧ cellAt squares l.2.2 = some m1
    · rw [if_pos hcond]
      constructor
      · intro hm
        have hm1 : m1 = m := by simpa using hm
        subst hm1
        exact ⟨rfl, hcond.1, hcond.2⟩
      · intro hc
        exact hc.1
    · rw [if_neg hcond]
      constructor
      · intro hm
        exact absurd hm (by simp)
      · intro hc
        have hm1 : m1 = m := by simpa using hc.1
        subst hm1
        exact absurd ⟨hc.2.1, hc.2.2⟩ hcond

theorem currentStatus_won_iff (s : GState) (m : Mark) (l : Nat × Nat × Nat) :
    currentStatus s = Status.Won m l ↔
      calculateWinner (currentBoard s) = some (m, l) := by
  unfold currentStatus statusOf
  rcases h : calculateWinner (currentBoard s) with _ | ⟨m1, l1⟩
  · by_cases h9 : movesPlayed (currentBoard s) = 9 <;> simp [h9]
  · simp

theorem currentStatus_draw_iff (s : GState) :
    currentStatus s = Status.Draw ↔
      calculateWinner (currentBoard s) = none ∧
        movesPlayed (currentBoard s) = 9 := by
  unfold currentStatus statusOf
  rcases h : calculateWinner (currentBoard s) with _ | ml
  · by_cases h9 : movesPlayed (currentBoard s) = 9 <;> simp [h9]
  · simp

theorem cellAt_eq_none_of_le (b : Board) (i : Nat) (hi : b.length ≤ i) :
    cellAt b i = none := by
  rw [cellAt, List.getD_eq_getElem?_getD, List.getElem?_eq_none hi]
  rfl

/-- The `Reach.play` rule restated for a raw index below 9. -/
theorem reach_play9 {s : GState} (h : Reach s) (i : Nat) (hi : i < 9) :
    Reach (handlePlay s i) :=
  Reach.play ⟨i, hi⟩ h

/-- The reachable drawn state built by the legal sequence
X0 O1 X2 O4 X3 O5 X7 O6 X8 (final board X,O,X,X,O,O,O,X,X — no line). -/
def drawState : GState :=
  handlePlay (handlePlay (handlePlay (handlePlay (handlePlay (handlePlay
    (handlePlay (handlePlay (handlePlay initState 0) 1) 2) 4) 3) 5) 7) 6) 8

theorem reach_drawState : Reach drawState :=
  reach_play9 (reach_play9 (reach_play9 (reach_play9 (reach_play9 (reach_play9
    (reach_play9 (reach_play9 (reach_play9 Reach.init 0 (by decide)) 1 (by decide))
      2 (by decide)) 4 (by decide)) 3 (by decide)) 5 (by decide)) 7 (by decide))
        6 (by decide)) 8 (by decide)

/-- The state after the spec scenario sequence play(0), play(4), play(1),
play(3), play(8): X on cells 0, 1, 8 and O on cells 4, 3. -/
def specSeqState : GState :=
  handlePlay (handlePlay (handlePlay (handlePlay (handlePlay initState 0) 4) 1) 3) 8

/-- The state after play(0), play(1), play(4), play(3), play(8): X wins on the
diagonal 0, 4, 8. -/
def wonState : GState :=
  handlePlay (handlePlay (handlePlay (handlePlay (handlePlay initState 0) 1) 4) 3) 8

theorem reach_wonState : Reach wonState :=
  reach_play9 (reach_play9 (reach_play9 (reach_play9 (reach_play9 Reach.init
    0 (by decide)) 1 (by decide)) 4 (by decide)) 3 (by decide)) 8 (by decide)

/-- A board with both diagonals complete for X and no other complete line:
X at the corners and centre, O on the edges. -/
def doubleDiagBoard : Board :=
  [some Mark.X, some Mark.O, some Mark.X,
   some Mark.O, some Mark.X, some Mark.O,
   some Mark.X, some Mark.O, some Mark.X]

/-- The draw example board of the spec: X,O,X,X,O,O,O,X,X by index 0..8. -/
def drawBoardEx : Board :=
  [some Mark.X, some Mark.O, some Mark.X,
   some Mark.X, some Mark.O, some Mark.O,
   some Mark.O, some Mark.X, some Mark.X]

/-! ### The claims -/

/-- C1: `calculateWinner` checks the 8 winning lines in the fixed order rows
top-to-bottom, columns left-to-right, then the diagonals (0,4,8) and (2,4,6),
and returns the mark and line of the first line in that order whose three
cells are equal and non-Empty (so when two lines are simultaneously complete,
the earlier-scanned one is returned); the derived status is then Won with
that mark and line. -/
theorem tttC1_first_complete_line (squares : Board) (k : Nat)
    (hk : k < linesList.length) (m : Mark)
    (hwin : cellAt squares (linesList.get ⟨k, hk⟩).1 = some m ∧
      cellAt squares (linesList.get ⟨k, hk⟩).2.1 = some m ∧
      cellAt squares (linesList.get ⟨k, hk⟩).2.2 = some m)
    (hfirst : ∀ j, j < k → ∀ l1, linesList[j]? = some l1 → ∀ m1 : Mark,
      ¬(cellAt squares l1.1 = some m1 ∧ cellAt squares l1.2.1 = some m1 ∧
        cellAt squares l1.2.2 = some m1)) :
    calculateWinner squares = some (m, linesList.get ⟨k, hk⟩) ∧
    statusOf squares true = Status.Won m (linesList.get ⟨k, hk⟩) ∧
    statusOf squares false = Status.Won m (linesList.get ⟨k, hk⟩) := by
  have hcw : calculateWinner squares = some (m, linesList.get ⟨k, hk⟩) := by
    apply scanLines_first squares linesList k hk m
    · exact (lineFilled_eq_some_iff squares _ m).mpr hwin
    · intro j hj
      rcases hf : lineFilled squares (linesList.get ⟨j, Nat.lt_trans hj hk⟩) with _ | m1
      · rfl
      · have hl1 : linesList[j]? = some (linesList.get ⟨j, Nat.lt_trans hj hk⟩) := by
          rw [List.getElem?_eq_getElem (Nat.lt_trans hj hk)]
          rfl
        exact absurd ((lineFilled_eq_some_iff squares _ m1).mp hf)
          (hfirst j hj _ hl1 m1)
  refine ⟨hcw, ?_, ?_⟩ <;> simp [statusOf, hcw]

/-- C1 witness: on the board with X at the corners and centre both diagonals
are complete, and the scan returns the earlier diagonal (0,4,8). -/
theorem tttC1_witness :
    calculateWinner doubleDiagBoard = some (Mark.X, (0, 4, 8)) ∧
    statusOf doubleDiagBoard true = Status.Won Mark.X (0, 4, 8) := by
  have h := tttC1_first_complete_line doubleDiagBoard 6 (by decide) Mark.X
    (by refine ⟨?_, ?_, ?_⟩ <;> decide)
    (by
      intro j hj l1 hl1 m1
      interval_cases j <;> simp only [linesList] at hl1 <;>
        simp only [List.getElem?_cons_zero, List.getElem?_cons_succ,
          Option.some.injEq] at hl1 <;> subst hl1 <;> cases m1 <;> decide)
  exact ⟨h.1, h.2.1⟩

/-- C2: a board whose 9 cells are all non-Empty and which has no winning line
evaluates to Draw under the source's winner/isDraw derivation. -/
theorem tttC2_full_board_draw (squares : Board) (xNext : Bool)
    (hlen : squares.length = 9)
    (hfull : ∀ k, k < 9 → cellAt squares k ≠ none)
    (hnoline : ∀ l ∈ linesList, ∀ m : Mark,
      ¬(cellAt squares l.1 = some m ∧ cellAt squares l.2.1 = some m ∧
        cellAt squares l.2.2 = some m)) :
    statusOf squares xNext = Status.Draw := by
  have hcw : calculateWinner squares = none := by
    apply scanLines_eq_none
    intro l hl
    rcases hf : lineFilled squares l with _ | m1
    · rfl
    · exact absurd ((lineFilled_eq_some_iff squares l m1).mp hf) (hnoline l hl m1)
  have hmp : movesPlayed squares = 9 := by
    rw [movesPlayed_eq_countP, ← hlen]
    apply List.countP_eq_length.mpr
    intro c hc
    rcases List.mem_iff_getElem.mp hc with ⟨n, hn, hcn⟩
    have hn9 : n < 9 := by omega
    have := hfull n hn9
    rw [cellAt_eq_getElem squares n hn, hcn] at this
    simpa [Option.isSome_iff_ne_none] using this
  simp [statusOf, hcw, hmp]

/-- C2 witness: the spec's example board X,O,X,X,O,O,O,X,X evaluates to Draw. -/
theorem tttC2_witness : statusOf drawBoardEx true = Status.Draw :=
  tttC2_full_board_draw drawBoardEx true (by decide)
    (by intro k hk; interval_cases k <;> decide)
    (by intro l hl m1; fin_cases hl <;> cases m1 <;> decide)

/-- C3: in every reachable state whose current board has an empty cell and no
winning line, the status is InProgress with the next mark derived from the
parity of the number of non-Empty cells: X exactly when that count is even. -/
theorem tttC3_inProgress_parity {s : GState} (hs : Reach s)
    (hw : calculateWinner (currentBoard s) = none)
    (hempty : ∃ k, k < 9 ∧ cellAt (currentBoard s) k = none) :
    currentStatus s = Status.InProgress
      (if movesPlayed (currentBoard s) % 2 = 0 then Mark.X else Mark.O) := by
  have hwf := reach_wf hs
  have hlen9 := currentBoard_len9 hwf
  rcases hempty with ⟨k, hk9, hkn⟩
  have hne : movesPlayed (currentBoard s) ≠ 9 := by
    have hne' := movesPlayed_ne_length_of_none (currentBoard s) k (by omega) hkn
    rw [hlen9] at hne'
    exact hne'
  have hcount := currentBoard_count hwf
  unfold currentStatus statusOf
  rw [hw]
  simp only [if_neg hne]
  rw [hcount, xIsNext_mark]
  rfl

/-- C3 witness: after X plays cell 0, the status is InProgress O (one mark on
the board, odd count). -/
theorem tttC3_witness :
    currentStatus (handlePlay initState 0) = Status.InProgress Mark.O := by
  have h := tttC3_inProgress_parity (reach_play9 Reach.init 0 (by decide))
    (by decide) ⟨1, by decide, by decide⟩
  simpa using h

/-- C4: in every state reachable by play (on 0..8), undo, redo, jumpTo and
reset, snapshot 0 is the empty 9-cell board, the cursor lies inside the
history, and each snapshot extends the previous one by exactly one
Empty→Mark write whose mark alternates by the parity of the snapshot index
(even index places X). -/
theorem tttC4_history_invariant {s : GState} (hs : Reach s) :
    s.history[0]? = some (List.replicate 9 none) ∧
    s.step < s.history.length ∧
    ∀ i b b', s.history[i]? = some b → s.history[i + 1]? = some b' →
      ∃ k, k < 9 ∧ cellAt b k = none ∧ b' = b.set k (some (markOf i)) := by
  have h := reach_wf hs
  exact ⟨h.head_init, h.step_lt, h.chain⟩

/-- C4 witness: the invariant instantiated at the reachable state after
play(0), play(4). -/
theorem tttC4_witness :
    (handlePlay (handlePlay initState 0) 4).history[0]? =
      some (List.replicate 9 none) ∧
    (handlePlay (handlePlay initState 0) 4).step <
      (handlePlay (handlePlay initState 0) 4).history.length := by
  have h := tttC4_history_invariant
    (reach_play9 (reach_play9 Reach.init 0 (by decide)) 4 (by decide))
  exact ⟨h.1, h.2.1⟩

theorem getElem?_take_append {α : Type} {l : List α} {x : α} {n : Nat}
    (h : n < l.length) : (l.take (n + 1) ++ [x])[n]? = l[n]? := by
  rw [List.getElem?_append,
    if_pos (by rw [List.length_take]; exact lt_min (Nat.lt_succ_self n) h),
    List.getElem?_take, if_pos (Nat.lt_succ_self n)]

/-- C5 counterexample: at the reachable drawn state produced by the legal
sequence X0 O1 X2 O4 X3 O5 X7 O6 X8, play(0) is rejected, but the rejection
comes from the occupancy disjunct of the guard: the winner disjunct is false
(`calculateWinner` is `none` — the guard never tests for draw), so the
rejection is CellOccupied, not GameOver. -/
theorem tttC5_counterexample :
    Reach drawState ∧
    currentStatus drawState = Status.Draw ∧
    handlePlay drawState 0 = drawState ∧
    playError drawState 0 = some MoveError.CellOccupied ∧
    playError drawState 0 ≠ some MoveError.GameOver ∧
    calculateWinner (currentBoard drawState) = none := by
  refine ⟨reach_drawState, ?_, ?_, ?_, ?_, ?_⟩ <;> decide

/-- C5 (amended): for a reachable state and a cell index in 0..8, play fails
exactly when the cell is occupied or a winner exists, leaving the state
unchanged; the failure is CellOccupied precisely when the cell is occupied
and GameOver precisely when the cell is free but a winner exists.  When the
status is Won every play fails; when the status is Draw every play on 0..8
fails, but as CellOccupied, because all nine cells are then occupied and the
guard tests occupancy first and never tests for draw. -/
theorem tttC5_play_rejection {s : GState} (hs : Reach s) (i : Nat) (hi : i < 9) :
    (playError s i = some MoveError.CellOccupied ↔ cellAt (currentBoard s) i ≠ none) ∧
    (playError s i = some MoveError.GameOver ↔
      (cellAt (currentBoard s) i = none ∧ calculateWinner (currentBoard s) ≠ none)) ∧
    (playError s i ≠ none → handlePlay s i = s) ∧
    (playError s i = none → handlePlay s i ≠ s) ∧
    (∀ m l, currentStatus s = Status.Won m l → handlePlay s i = s) ∧
    (currentStatus s = Status.Draw → playError s i = some MoveError.CellOccupied) := by
  have hwf := reach_wf hs
  have hwon : ∀ m l, currentStatus s = Status.Won m l → handlePlay s i = s := by
    intro m l hst
    have hcw := (currentStatus_won_iff s m l).mp hst
    exact handlePlay_reject s i (Or.inr (by rw [hcw]; rfl))
  have hdraw : currentStatus s = Status.Draw →
      playError s i = some MoveError.CellOccupied := by
    intro hst
    have hd := (currentStatus_draw_iff s).mp hst
    have hocc : (cellAt (currentBoard s) i).isSome := by
      apply cellAt_isSome_of_movesPlayed_eq_length
      · rw [currentBoard_len9 hwf]
        exact hd.2
      · rw [currentBoard_len9 hwf]
        exact hi
    rw [playError, if_pos hocc]
  by_cases hcell : (cellAt (currentBoard s) i).isSome
  · refine ⟨?_, ?_, ?_, ?_, hwon, hdraw⟩
    · simp [playError, hcell, Option.isSome_iff_ne_none.mp hcell]
    · simp only [playError, if_pos hcell]
      constructor
      · intro h
        exact absurd h (by simp)
      · intro h
        exact absurd h.1 (Option.isSome_iff_ne_none.mp hcell)
    · intro _
      exact handlePlay_reject s i (Or.inl hcell)
    · intro h
      rw [playError, if_pos hcell] at h
      exact absurd h (by simp)
  · have hcnone : cellAt (currentBoard s) i = none := by
      simpa [Option.isSome_iff_ne_none] using hcell
    by_cases hwin : (calculateWinner (currentBoard s)).isSome
    · refine ⟨?_, ?_, ?_, ?_, hwon, hdraw⟩
      · simp [playError, hcell, hwin, hcnone]
      · simp [playError, hcell, hwin, hcnone, Option.isSome_iff_ne_none.mp hwin]
      · intro _
        exact handlePlay_reject s i (Or.inr hwin)
      · intro h
        rw [playError, if_neg hcell, if_pos hwin] at h
        exact absurd h (by simp)
    · have hwnone : calculateWinner (currentBoard s) = none := by
        simpa [Option.isSome_iff_ne_none] using hwin
      refine ⟨?_, ?_, ?_, ?_, hwon, hdraw⟩
      · simp [playError, hcell, hwin, hcnone]
      · simp [playError, hcell, hwin, hwnone]
      · intro h
        rw [playError, if_neg hcell, if_neg hwin] at h
        exact absurd rfl h
      · intro _ heq
        have := (handlePlay_eq_self_iff s i).mp heq
        rcases this with h | h
        · exact hcell h
        · exact hwin h

/-- C5 witness: the amended rejection contract applied at the drawn state and
cell 2 — the play is rejected and its error is CellOccupied. -/
theorem tttC5_witness :
    playError drawState 2 = some MoveError.CellOccupied ∧
    handlePlay drawState 2 = drawState := by
  have h := tttC5_play_rejection reach_drawState 2 (by decide)
  exact ⟨h.2.2.2.2.2 (by decide), h.2.2.1 (by decide)⟩

/-- The base state of the C6 scenario: History = [B0, B1, B2] after X0, O4. -/
def c6Base : GState := handlePlay (handlePlay initState 0) 4

/-- After one undo: History still [B0, B1, B2], Cursor = 1. -/
def c6Undone : GState := handleUndo c6Base

/-- Replaying the undone cell 4 from the cursor-behind position. -/
def c6Replay : GState := handlePlay c6Undone 4

/-- C6 counterexample: with History = [B0, B1, B2] and Cursor = 1, the
successful play(4) — the same cell that produced B2 — yields a new last
entry B3 equal to B2, so the resulting History is identical to the old one
and the claimed B3 ≠ B2 fails. -/
theorem tttC6_counterexample :
    c6Base.history.length = 3 ∧
    c6Undone.step = 1 ∧
    c6Undone.history = c6Base.history ∧
    c6Replay ≠ c6Undone ∧
    c6Replay.step = 2 ∧
    c6Replay.history = c6Base.history := by
  refine ⟨?_, ?_, ?_, ?_, ?_, ?_⟩ <;> decide

/-- C6 (amended): a successful play truncates History to [0..Cursor+1),
appends the board obtained by writing the parity mark at the played cell,
and sets Cursor = Cursor + 1; a subsequent undo-then-redo reaches exactly
the appended entry.  The new last entry differs from the discarded one
unless the replayed cell (and hence, by the parity of the cursor, the mark)
coincides with the move that produced the discarded entry, in which case
the two boards are equal. -/
theorem tttC6_play_truncates {s : GState} (hs : Reach s) (i : Nat)
    (hplay : handlePlay s i ≠ s) :
    (handlePlay s i).history = s.history.take (s.step + 1) ++
      [jsSet (currentBoard s) i (some (if xIsNext s then Mark.X else Mark.O))] ∧
    (handlePlay s i).step = s.step + 1 ∧
    handleRedo (handleUndo (handlePlay s i)) = handlePlay s i := by
  have hwf := reach_wf hs
  have hg : ¬((cellAt (currentBoard s) i).isSome ∨
      (calculateWinner (currentBoard s)).isSome) := by
    intro h
    exact hplay ((handlePlay_eq_self_iff s i).mpr h)
  push_neg at hg
  have hc : cellAt (currentBoard s) i = none := by
    simpa [Option.isSome_iff_ne_none] using hg.1
  have hw : calculateWinner (currentBoard s) = none := by
    simpa [Option.isSome_iff_ne_none] using hg.2
  have hacc := handlePlay_accept s i hc hw
  have hthist : (handlePlay s i).history = s.history.take (s.step + 1) ++
      [jsSet (currentBoard s) i (some (if xIsNext s then Mark.X else Mark.O))] := by
    rw [hacc]
  have htstep : (handlePlay s i).step = s.step + 1 := by
    rw [hacc]
  have hlen : (handlePlay s i).history.length = s.step + 2 := by
    rw [hthist, List.length_append, List.length_take,
      min_eq_left (by have := hwf.step_lt; omega)]
    rfl
  refine ⟨hthist, htstep, ?_⟩
  have hundo : handleUndo (handlePlay s i) =
      { history := (handlePlay s i).history, step := s.step } := by
    rw [handleUndo, if_pos (by rw [htstep]; omega), htstep]
    simp
  rw [hundo, handleRedo]
  rw [if_pos (by show s.step < (handlePlay s i).history.length - 1; rw [hlen]; omega)]
  show GState.mk (handlePlay s i).history (s.step + 1) = handlePlay s i
  rw [← htstep]

/-- C6 witness: the amended truncation law applied to play(0) at the initial
state: Cursor becomes 1 and undo-then-redo returns to the played state. -/
theorem tttC6_witness :
    (handlePlay initState 0).step = 1 ∧
    handleRedo (handleUndo (handlePlay initState 0)) = handlePlay initState 0 := by
  have h := tttC6_play_truncates Reach.init 0 (by decide)
  exact ⟨h.2.1, h.2.2⟩

/-- C7: undo immediately after a successful play always succeeds and restores
exactly the board and the status current before the play. -/
theorem tttC7_play_undo_roundtrip {s : GState} (hs : Reach s) (i : Nat)
    (hplay : handlePlay s i ≠ s) :
    handleUndo (handlePlay s i) ≠ handlePlay s i ∧
    (handleUndo (handlePlay s i)).step = s.step ∧
    currentBoard (handleUndo (handlePlay s i)) = currentBoard s ∧
    currentStatus (handleUndo (handlePlay s i)) = currentStatus s := by
  have hwf := reach_wf hs
  have hg : ¬((cellAt (currentBoard s) i).isSome ∨
      (calculateWinner (currentBoard s)).isSome) := by
    intro h
    exact hplay ((handlePlay_eq_self_iff s i).mpr h)
  push_neg at hg
  have hc : cellAt (currentBoard s) i = none := by
    simpa [Option.isSome_iff_ne_none] using hg.1
  have hw : calculateWinner (currentBoard s) = none := by
    simpa [Option.isSome_iff_ne_none] using hg.2
  have hacc := handlePlay_accept s i hc hw
  have hthist : (handlePlay s i).history = s.history.take (s.step + 1) ++
      [jsSet (currentBoard s) i (some (if xIsNext s then Mark.X else Mark.O))] := by
    rw [hacc]
  have htstep : (handlePlay s i).step = s.step + 1 := by
    rw [hacc]
  have hundo : handleUndo (handlePlay s i) =
      { history := (handlePlay s i).history, step := s.step } := by
    rw [handleUndo, if_pos (by rw [htstep]; omega), htstep]
    simp
  have hboard : currentBoard (handleUndo (handlePlay s i)) = currentBoard s := by
    rw [hundo]
    show (handlePlay s i).history.getD s.step [] = currentBoard s
    rw [hthist, List.getD_eq_getElem?_getD, getElem?_take_append hwf.step_lt,
      ← List.getD_eq_getElem?_getD]
    rfl
  refine ⟨?_, ?_, hboard, ?_⟩
  · intro heq
    have hst := congrArg GState.step heq
    rw [hundo, htstep] at hst
    simp at hst
  · rw [hundo]
  · rw [currentStatus, currentStatus, hboard]
    have hx : xIsNext (handleUndo (handlePlay s i)) = xIsNext s := by
      rw [xIsNext, xIsNext, hundo]
    rw [hx]

/-- C7 witness: the round trip at the initial state and cell 0. -/
theorem tttC7_witness :
    handleUndo (handlePlay initState 0) ≠ handlePlay initState 0 ∧
    currentBoard (handleUndo (handlePlay initState 0)) = currentBoard initState ∧
    currentStatus (handleUndo (handlePlay initState 0)) = currentStatus initState := by
  have h := tttC7_play_undo_roundtrip Reach.init 0 (by decide)
  exact ⟨h.1, h.2.2.1, h.2.2.2⟩

/-- C8: undo fails (the spec's AtStart) exactly when the cursor is 0; in every
other state — whatever the current status, Won, Draw or InProgress — undo
succeeds, decrements the cursor by one and leaves the history unchanged. -/
theorem tttC8_undo_contract (s : GState) :
    (undoError s = some MoveError.AtStart ↔ s.step = 0) ∧
    (s.step = 0 → handleUndo s = s) ∧
    (s.step ≠ 0 →
      handleUndo s ≠ s ∧ (handleUndo s).step = s.step - 1 ∧
        (handleUndo s).history = s.history) := by
  by_cases h0 : s.step = 0
  · refine ⟨?_, ?_, ?_⟩
    · simp [undoError, h0]
    · intro _
      rw [handleUndo, if_neg (by omega)]
    · intro h
      exact absurd h0 h
  · have hpos : 0 < s.step := by omega
    refine ⟨?_, ?_, ?_⟩
    · simp [undoError, if_pos hpos, h0]
    · intro h
      exact absurd h h0
    · intro _
      rw [handleUndo, if_pos hpos]
      refine ⟨?_, rfl, rfl⟩
      intro heq
      have hst := congrArg GState.step heq
      simp at hst
      omega

/-- C8 witness: at the reachable state where X has already won on the
diagonal, undo still succeeds: the cursor drops from 5 to 4 and the history
is untouched. -/
theorem tttC8_witness :
    currentStatus wonState = Status.Won Mark.X (0, 4, 8) ∧
    (handleUndo wonState).step = 4 ∧
    (handleUndo wonState).history = wonState.history ∧
    handleUndo wonState ≠ wonState := by
  have h := (tttC8_undo_contract wonState).2.2 (by decide)
  exact ⟨by decide, h.2.1.trans (by decide), h.2.2, h.1⟩

/-- C9 counterexample: the spec's sequence play(0), play(4), play(1),
play(3), play(8) puts X on cells 0, 1, 8 and O on cells 4, 3, so the final
board has no winner: the status is InProgress O, not Won X (0,4,8), and a
further play still succeeds. -/
theorem tttC9_counterexample :
    currentStatus specSeqState = Status.InProgress Mark.O ∧
    currentStatus specSeqState ≠ Status.Won Mark.X (0, 4, 8) ∧
    calculateWinner (currentBoard specSeqState) = none ∧
    handlePlay specSeqState 2 ≠ specSeqState := by
  refine ⟨?_, ?_, ?_, ?_⟩ <;> decide

/-- C9 (amended): with O's replies on cells 1 and 3 instead — play(0),
play(1), play(4), play(3), play(8) — every step succeeds and the final
status is Won X (0,4,8); afterwards every play on 0..8 is rejected, and on
every still-empty cell the rejection is the game-over disjunct of the
guard. -/
theorem tttC9_win_scenario :
    handlePlay initState 0 ≠ initState ∧
    handlePlay (handlePlay initState 0) 1 ≠ handlePlay initState 0 ∧
    handlePlay (handlePlay (handlePlay initState 0) 1) 4 ≠
      handlePlay (handlePlay initState 0) 1 ∧
    handlePlay (handlePlay (handlePlay (handlePlay initState 0) 1) 4) 3 ≠
      handlePlay (handlePlay (handlePlay initState 0) 1) 4 ∧
    wonState ≠ handlePlay (handlePlay (handlePlay (handlePlay initState 0) 1) 4) 3 ∧
    currentStatus wonState = Status.Won Mark.X (0, 4, 8) ∧
    (∀ i, i < 9 → handlePlay wonState i = wonState) ∧
    (∀ i, i < 9 → cellAt (currentBoard wonState) i = none →
      playError wonState i = some MoveError.GameOver) := by
  refine ⟨?_, ?_, ?_, ?_, ?_, ?_, ?_, ?_⟩ <;> decide

/-- C9 witness: the amended scenario instantiated at cell 2 (still empty
after the win): the play is rejected and the rejection is GameOver. -/
theorem tttC9_witness :
    handlePlay wonState 2 = wonState ∧
    playError wonState 2 = some MoveError.GameOver := by
  have h := tttC9_win_scenario
  exact ⟨h.2.2.2.2.2.2.1 2 (by decide), h.2.2.2.2.2.2.2 2 (by decide) (by decide)⟩

/-- C10: an out-of-range play (index 9 or beyond) on a reachable state whose
board has no winner is not rejected: the cursor advances, the truncate-and-
append shape still happens, and the appended snapshot has i + 1 > 9 cells,
so the documented 0..8 precondition is what protects the 9-cell board shape
and the history invariant. -/
theorem tttC10_out_of_range_play {s : GState} (hs : Reach s) (i : Nat)
    (hi : 9 ≤ i) (hw : calculateWinner (currentBoard s) = none) :
    handlePlay s i ≠ s ∧
    (handlePlay s i).step = s.step + 1 ∧
    (handlePlay s i).history = s.history.take (s.step + 1) ++
      [jsSet (currentBoard s) i (some (if xIsNext s then Mark.X else Mark.O))] ∧
    (jsSet (currentBoard s) i
      (some (if xIsNext s then Mark.X else Mark.O))).length = i + 1 ∧
    9 < (jsSet (currentBoard s) i
      (some (if xIsNext s then Mark.X else Mark.O))).length := by
  have hwf := reach_wf hs
  have hlen9 : (currentBoard s).length = 9 := currentBoard_len9 hwf
  have hc : cellAt (currentBoard s) i = none :=
    cellAt_eq_none_of_le _ _ (by omega)
  have hacc := handlePlay_accept s i hc hw
  have hjslen : (jsSet (currentBoard s) i
      (some (if xIsNext s then Mark.X else Mark.O))).length = i + 1 := by
    rw [jsSet, if_neg (by omega)]
    simp [List.length_append, List.length_replicate]
    omega
  refine ⟨?_, by rw [hacc], by rw [hacc], hjslen, by rw [hjslen]; omega⟩
  intro heq
  rcases (handlePlay_eq_self_iff s i).mp heq with h | h
  · rw [hc] at h
    simp at h
  · rw [hw] at h
    simp at h

/-- C10 witness: playing cell 9 at the initial state succeeds and appends a
10-cell snapshot. -/
theorem tttC10_witness :
    handlePlay initState 9 ≠ initState ∧
    (handlePlay initState 9).step = 1 ∧
    (jsSet (currentBoard initState) 9
      (some (if xIsNext initState then Mark.X else Mark.O))).length = 10 := by
  have h := tttC10_out_of_range_play Reach.init 9 (by omega) (by decide)
  exact ⟨h.1, h.2.1, h.2.2.2.1⟩

end TicTacToe
